import Mathlib

/-!
# gradient-descent-2: model and loss functions, trainer loop, frame hand-off

A shallow embedding of `main.go`.

* `float64` values that the program reads or computes with `+`, `-`, `*` are
  exact rationals (`ℚ`); rounding, overflow and signed zeros are not modelled.
* The result of a `float64` division is an `F64`, which keeps the IEEE-754
  outcomes of dividing by zero (`NaN`, `±Inf`) apart from finite quotients.
* A Go run-time panic (index out of range) is `none` in `Option`.
* The trainer goroutine is modelled on its own: the display loop only receives
  from `img`, and `render` leaves the same buffer from either buffer state.
* Plotting and the window are outside the model; a frame is the data handed
  to `Plot`.
-/

namespace GradientDescent

/-! ## Numbers -/

/-- Result of a `float64` division: a finite quotient or one of the IEEE-754
special values that a division by zero produces. -/
inductive F64 where
  | fin (q : ℚ)
  | posInf
  | negInf
  | nan
  deriving DecidableEq, Repr

/-- The Go quotient `a / b` on finite `float64` operands with a divisor `b` that is a
non-negative count (`float64(len(...))`): `0/0` is `NaN`, a non-zero numerator
over zero is an infinity with the sign of the numerator, no panic is raised. -/
def fdiv (a b : ℚ) : F64 :=
  if b = 0 then
    if a = 0 then F64.nan else if 0 < a then F64.posInf else F64.negInf
  else F64.fin (a / b)

/-! ## Model / loss functions (`inference`, `msl`, `dmsl`) -/

/-- The value appended by one pass of the loop body of `inference` for the
input `x` and the type vector `ti = t[i]`. The expression reads `w[0]`..`w[11]`
and `t[i][0]`..`t[i][4]`; an index out of range panics, entries beyond those
read are ignored. -/
def inferenceTerm (w ti : List ℚ) (x : ℚ) : Option ℚ :=
  match w, ti with
  | w0 :: w1 :: w2 :: w3 :: w4 :: w5 :: w6 :: w7 :: w8 :: w9 :: w10 :: w11 :: _,
    t0 :: t1 :: t2 :: t3 :: t4 :: _ =>
    some ((w0 * t0 + w1 * t1 + w2 * t2 + w3 * t3 + w4 * t4 + w5)
      + (w6 * t0 + w7 * t1 + w8 * t2 + w9 * t3 + w10 * t4 + w11) * x)
  | _, _ => none

/-- The loop `for i, x := range inputs { res = append(res, ...) }` of
`inference`, at index `i` with the inputs still to visit and the result
accumulated so far. -/
def inferenceLoop (w : List ℚ) (t : List (List ℚ)) :
    Nat → List ℚ → List ℚ → Option (List ℚ)
  | _, [], res => some res
  | i, x :: rest, res =>
    match t[i]? with
    | none => none
    | some ti =>
      match inferenceTerm w ti x with
      | none => none
      | some p => inferenceLoop w t (i + 1) rest (res ++ [p])

/-- Go `inference(inputs, w, t)`. -/
def inference (inputs w : List ℚ) (t : List (List ℚ)) : Option (List ℚ) :=
  inferenceLoop w t 0 inputs []

/-- The loop `for i := range labels { loss += (labels[i]-y[i])*(labels[i]-y[i]) }`
of `msl`, at index `i` with the labels still to visit. -/
def mslLoop (y : List ℚ) : Nat → List ℚ → ℚ → Option ℚ
  | _, [], loss => some loss
  | i, l :: rest, loss =>
    match y[i]? with
    | none => none
    | some yi => mslLoop y (i + 1) rest (loss + (l - yi) * (l - yi))

/-- Go `msl(labels, y)`: the accumulated sum divided by `float64(len(labels))`. -/
def msl (labels y : List ℚ) : Option F64 :=
  match mslLoop y 0 labels 0 with
  | none => none
  | some loss => some (fdiv loss (labels.length : ℚ))

/-- The loop of `dmsl`, at index `i` with the labels still to visit and the
running sums `dw`, `db`. -/
def dmslLoop (inputs y : List ℚ) : Nat → List ℚ → ℚ → ℚ → Option (ℚ × ℚ)
  | _, [], dw, db => some (dw, db)
  | i, l :: rest, dw, db =>
    match y[i]? with
    | none => none
    | some yi =>
      match inputs[i]? with
      | none => none
      | some xi => dmslLoop inputs y (i + 1) rest (dw + xi * (l - yi)) (db + (l - yi))

/-- Go `dmsl(inputs, labels, y)`. -/
def dmsl (inputs labels y : List ℚ) : Option (F64 × F64) :=
  match dmslLoop inputs y 0 labels 0 0 with
  | none => none
  | some (dw, db) =>
    some (fdiv (2 * dw) (labels.length : ℚ), fdiv (2 * db) (labels.length : ℚ))

/-- The length-5 indicator vector with a `1` at position `j`. -/
def oneHot (j : Nat) : List ℚ :=
  [if j = 0 then 1 else 0, if j = 1 then 1 else 0, if j = 2 then 1 else 0,
   if j = 3 then 1 else 0, if j = 4 then 1 else 0]

/-! ## Frame hand-off (`img`, `render`) -/

/-- A point `plotter.XY` of the loss history: `X` is `float64(i)`, `Y` the
value returned by `msl`. -/
structure XY where
  X : ℚ
  Y : F64
  deriving DecidableEq, Repr

/-- What a frame shows: the argument handed to `Plot` (the scatter of the
inputs is the same in every fit frame). -/
inductive Frame where
  | lossCurve (pts : List XY)
  | fitLine (p0 p1 : ℚ × ℚ)
  deriving DecidableEq, Repr

/-- A send `c <- x` on a channel of capacity 1 whose buffer is `c`: it proceeds
iff the buffer is empty; `none` means the send cannot proceed (it would
block). -/
def chanSend {α : Type} (c : Option α) (x : α) : Option (Option α) :=
  match c with
  | none => some (some x)
  | some _ => none

/-- A receive `<-c` on a channel of capacity 1 whose buffer is `c`: it proceeds
iff the buffer holds a value, which it returns together with the emptied
buffer; `none` means nothing can be received. -/
def chanRecv {α : Type} (c : Option α) : Option (α × Option α) :=
  match c with
  | some v => some (v, none)
  | none => none

/-- The closure `render` of `main`:
`select { case <-img: img <- x; case img <- x: }`.
With capacity 1 exactly one of the two cases is ready: the receive when the
buffer is full (drain, then send), the send when it is empty. -/
def render {α : Type} (img : Option α) (x : α) : Option (Option α) :=
  match chanRecv img with
  | some (_, img1) => chanSend img1 x
  | none => chanSend img x

/-! ## Dataset set-up in `main` -/

/-- Go `type House struct`. The field `Type` is named `Typ` here. -/
structure House where
  Square : ℚ
  Typ : String
  Price : ℚ
  WallColor : String
  deriving DecidableEq, Repr

/-- The slices built by the set-up of `main`. -/
structure Dataset where
  inputs : List ℚ
  labels : List ℚ
  types : List (List ℚ)
  colors : List (List ℚ)
  deriving DecidableEq, Repr

/-- The map `typeId` declared in `main`; a missing key yields the nil slice.
The set-up code never reads it. -/
def typeId (s : String) : List ℚ :=
  if s = "Duplex" then [1, 0, 0, 0, 0]
  else if s = "Detached" then [0, 1, 0, 0, 0]
  else if s = "Semi-detached" then [0, 0, 1, 0, 0]
  else if s = "Townhouse" then [0, 0, 0, 1, 0]
  else if s = "Multi-family" then [0, 0, 0, 0, 1]
  else []

/-- The map `colorId` declared in `main`; a missing key yields `0`. -/
def colorId (s : String) : Nat :=
  if s = "brown" then 0
  else if s = "yellow" then 1
  else if s = "white" then 2
  else if s = "blue" then 3
  else if s = "green" then 4
  else 0

/-- An indexed assignment `l[i] = v`, which panics when `i` is out of range. -/
def setAt {α : Type} (l : List α) (i : Nat) (v : α) : Option (List α) :=
  if i < l.length then some (l.set i v) else none

/-- The loop `for i, house := range houses` of the set-up, at index `i`. It
appends to `labels` and `inputs` and fills `colors[i]`; it has no assignment
to `types`. -/
def setupLoop : Nat → List House → Dataset → Option Dataset
  | _, [], d => some d
  | i, house :: rest, d =>
    let labels := d.labels ++ [house.Price]
    let inputs := d.inputs ++ [house.Square]
    let colorIndex := colorId house.WallColor
    match setAt (List.replicate 5 (0 : ℚ)) colorIndex 1 with
    | none => none
    | some ci =>
      match setAt d.colors i ci with
      | none => none
      | some colors =>
        setupLoop (i + 1) rest
          { inputs := inputs, labels := labels, types := d.types, colors := colors }

/-- The set-up of `main` (lines 56-79): `types` and `colors` are made with
`len(houses)` nil entries, then the loop runs. -/
def setup (houses : List House) : Option Dataset :=
  setupLoop 0 houses
    { inputs := [], labels := [],
      types := List.replicate houses.length [],
      colors := List.replicate houses.length [] }

/-- The inner loop `for j := 0; j < 5; j++` of the scatter grouping for the
sample `i`, with `n` passes left:
`if types[i][j] == 1 { xys[j] = append(xys[j], plotter.XY{X: inputs[i], Y: labels[i]}) }`.
`inputs[i]` and `labels[i]` are read only when the test holds. -/
def groupLoopJ (d : Dataset) (i : Nat) :
    Nat → Nat → List (List (ℚ × ℚ)) → Option (List (List (ℚ × ℚ)))
  | 0, _, xys => some xys
  | n + 1, j, xys =>
    match d.types[i]? with
    | none => none
    | some ti =>
      match ti[j]? with
      | none => none
      | some v =>
        if v = 1 then
          match xys[j]?, d.inputs[i]?, d.labels[i]? with
          | some g, some x, some l => groupLoopJ d i n (j + 1) (xys.set j (g ++ [(x, l)]))
          | _, _, _ => none
        else groupLoopJ d i n (j + 1) xys

/-- The outer loop `for i := 0; i < len(inputs); i++` of the scatter grouping,
with `n` passes left. -/
def groupLoopI (d : Dataset) :
    Nat → Nat → List (List (ℚ × ℚ)) → Option (List (List (ℚ × ℚ)))
  | 0, _, xys => some xys
  | n + 1, i, xys =>
    match groupLoopJ d i 5 0 xys with
    | none => none
    | some xys1 => groupLoopI d n (i + 1) xys1

/-- The scatter grouping of `main` (lines 81-88), starting from
`xys := make([]plotter.XYs, 5)`. -/
def scatterGroups (d : Dataset) : Option (List (List (ℚ × ℚ))) :=
  groupLoopI d d.inputs.length 0 (List.replicate 5 [])

/-! ## Trainer goroutine -/

/-- Constant `epochs` of `main`. -/
def epochs : Nat := 2000

/-- Constant `printEveryNthEpochs` of `main`. -/
def printEveryNthEpochs : Nat := 100

/-- Constant `plotLoss` of `main`. -/
def plotLoss : Bool := false

/-- Constant `inputPointsMinX` of `main`. -/
def inputPointsMinX : ℚ := 5

/-- Constant `inputPointsMaxX` of `main`. -/
def inputPointsMaxX : ℚ := 20

/-- Constant `startValueRange` of `main`. -/
def startValueRange : ℚ := 1

/-- Constant `extra = (inputPointsMaxX - inputPointsMinX) / 10`: a division of
untyped integer constants, which truncates (`15 / 10 = 1`). -/
def extra : ℚ := (((20 - 5 : Nat) / 10 : Nat) : ℚ)

/-- The slice `xs := []float64{inputPointsMinX - extra, inputPointsMaxX + extra}`. -/
def fitXs : List ℚ := [inputPointsMinX - extra, inputPointsMaxX + extra]

/-- A line written to standard output: the periodic `fmt.Printf` report or the
final `fmt.Println(w)`. -/
inductive Line where
  | report (i : Nat) (loss dw db : F64) (w : List ℚ)
  | weights (w : List ℚ)
  deriving DecidableEq, Repr

/-- The variables of the trainer goroutine that outlive one pass of its loop,
the buffer of the channel `img` and the text printed so far. -/
structure Trainer where
  w : List ℚ
  loss : List XY
  img : Option Frame
  out : List Line
  deriving DecidableEq, Repr

/-- The frame rendered in one epoch: `Plot(lossLines)` when `plotLoss`, else
the line through the predictions at the two abscissas `fitXs`. -/
def epochFrame (d : Dataset) (w : List ℚ) (loss : List XY) : Option Frame :=
  if plotLoss then some (Frame.lossCurve loss)
  else
    match inference fitXs w d.types with
    | none => none
    | some ys =>
      match fitXs[0]?, ys[0]?, fitXs[1]?, ys[1]? with
      | some x0, some y0, some x1, some y1 => some (Frame.fitLine (x0, y0) (x1, y1))
      | _, _, _, _ => none

/-- One pass of the body of `for i := 0; i < epochs; i++` in the trainer
goroutine. The two assignments to the weights are comments in the source, so
`w` is carried over unchanged. -/
def epochBody (d : Dataset) (i : Nat) (s : Trainer) : Option Trainer :=
  match inference d.inputs s.w d.types with
  | none => none
  | some y =>
    match msl d.labels y with
    | none => none
    | some l =>
      let loss := s.loss ++ [{ X := (i : ℚ), Y := l }]
      match epochFrame d s.w loss with
      | none => none
      | some frame =>
        match render s.img frame with
        | none => none
        | some img =>
          match dmsl d.inputs d.labels y with
          | none => none
          | some (dw, db) =>
            if i % printEveryNthEpochs = 0 then
              match loss[loss.length - 1]? with
              | none => none
              | some e =>
                some { w := s.w, loss := loss, img := img,
                       out := s.out ++ [Line.report i e.Y dw db s.w] }
            else some { w := s.w, loss := loss, img := img, out := s.out }

/-- The loop `for i := 0; i < epochs; i++` with `n` passes left, at index `i`. -/
def trainerLoop (d : Dataset) : Nat → Nat → Trainer → Option Trainer
  | 0, _, s => some s
  | n + 1, i, s =>
    match epochBody d i s with
    | none => none
    | some s1 => trainerLoop d n (i + 1) s1

/-- The start values `w[i] = startValueRange - rand.Float64()*2*startValueRange`
for `i` in `0..11`, where `rnd i` is the `i`-th draw of `rand.Float64()`. -/
def initW (rnd : Nat → ℚ) : List ℚ :=
  (List.range 12).map (fun i => startValueRange - rnd i * 2 * startValueRange)

/-- The state of the trainer goroutine when it enters its loop with the
weights `w0` and the channel buffer `img`. -/
def trainerStart (w0 : List ℚ) (img : Option Frame) : Trainer :=
  { w := w0, loss := [], img := img, out := [] }

/-- The trainer goroutine from the start values `w0`, for an epoch budget `E`:
the loop, then `fmt.Println(w)`. -/
def trainerFrom (d : Dataset) (E : Nat) (w0 : List ℚ) (img : Option Frame) :
    Option Trainer :=
  match trainerLoop d E 0 (trainerStart w0 img) with
  | none => none
  | some s => some { s with out := s.out ++ [Line.weights s.w] }

/-- The trainer goroutine of `main`. -/
def trainer (d : Dataset) (rnd : Nat → ℚ) (img : Option Frame) : Option Trainer :=
  trainerFrom d epochs (initW rnd) img


/-- The residuals `labels[i] - predictions[i]`. -/
def residuals (labels preds : List ℚ) : List ℚ :=
  List.zipWith (fun l p => l - p) labels preds

/-- The arithmetic mean of `x[i] * (labels[i] - predictions[i])` over the
`len(labels)` samples. -/
def meanXResidual (x labels preds : List ℚ) : ℚ :=
  (List.zipWith (fun xi r => xi * r) x (residuals labels preds)).sum / (labels.length : ℚ)

/-- The arithmetic mean of `labels[i] - predictions[i]` over the `len(labels)`
samples. -/
def meanResidual (labels preds : List ℚ) : ℚ :=
  (residuals labels preds).sum / (labels.length : ℚ)

/-- The arithmetic mean of the squared residuals `(labels[i] - predictions[i])^2`
over the `len(labels)` samples. -/
def meanSquaredResidual (labels preds : List ℚ) : ℚ :=
  (List.zipWith (fun l p => (l - p) ^ 2) labels preds).sum / (labels.length : ℚ)

/-- The predictions after the aggregate slope is raised by `a` and the
aggregate bias by `b`: `predictions[i] + (a * x[i] + b)`. -/
def shiftPredictions (a b : ℚ) (preds x : List ℚ) : List ℚ :=
  List.zipWith (fun p xi => p + (a * xi + b)) preds x

/-- A dataset of two samples of two different types, used to instantiate the
theorems on the trainer. -/
def twoSamples : Dataset :=
  { inputs := [1, 2], labels := [1, 3],
    types := [[1, 0, 0, 0, 0], [0, 1, 0, 0, 0]], colors := [] }

/-- A dataset of a single sample. -/
def oneSample : Dataset :=
  { inputs := [1], labels := [1], types := [[1, 0, 0, 0, 0]], colors := [] }

/-- The parameter vector of twelve zeros. -/
def zeroW : List ℚ := [0, 0, 0, 0, 0, 0, 0, 0, 0, 0, 0, 0]

/-- The closed form of one prediction, with out-of-range entries read as `0`. -/
def predictionAt (w ti : List ℚ) (x : ℚ) : ℚ :=
  (w.getD 0 0 * ti.getD 0 0 + w.getD 1 0 * ti.getD 1 0 + w.getD 2 0 * ti.getD 2 0
      + w.getD 3 0 * ti.getD 3 0 + w.getD 4 0 * ti.getD 4 0 + w.getD 5 0)
    + (w.getD 6 0 * ti.getD 0 0 + w.getD 7 0 * ti.getD 1 0 + w.getD 8 0 * ti.getD 2 0
      + w.getD 9 0 * ti.getD 3 0 + w.getD 10 0 * ti.getD 4 0 + w.getD 11 0) * x

/-! ## Lemmas on `inference` -/

theorem inferenceTerm_eq_some (w ti : List ℚ) (x : ℚ)
    (hw : 12 ≤ w.length) (ht : 5 ≤ ti.length) :
    inferenceTerm w ti x = some (predictionAt w ti x) := by
  rcases w with _ | ⟨w0, _ | ⟨w1, _ | ⟨w2, _ | ⟨w3, _ | ⟨w4, _ | ⟨w5, _ | ⟨w6, _ | ⟨w7,
    _ | ⟨w8, _ | ⟨w9, _ | ⟨w10, _ | ⟨w11, w⟩⟩⟩⟩⟩⟩⟩⟩⟩⟩⟩⟩ <;>
    simp at hw
  rcases ti with _ | ⟨t0, _ | ⟨t1, _ | ⟨t2, _ | ⟨t3, _ | ⟨t4, ti⟩⟩⟩⟩⟩ <;> simp at ht
  simp [inferenceTerm, predictionAt]

theorem inferenceTerm_eq_none_iff (w ti : List ℚ) (x : ℚ) :
    inferenceTerm w ti x = none ↔ w.length < 12 ∨ ti.length < 5 := by
  rcases w with _ | ⟨w0, _ | ⟨w1, _ | ⟨w2, _ | ⟨w3, _ | ⟨w4, _ | ⟨w5, _ | ⟨w6, _ | ⟨w7,
    _ | ⟨w8, _ | ⟨w9, _ | ⟨w10, _ | ⟨w11, w⟩⟩⟩⟩⟩⟩⟩⟩⟩⟩⟩⟩ <;>
  rcases ti with _ | ⟨t0, _ | ⟨t1, _ | ⟨t2, _ | ⟨t3, _ | ⟨t4, ti⟩⟩⟩⟩⟩ <;>
    simp [inferenceTerm]

theorem inferenceLoop_eq_some (w : List ℚ) (t : List (List ℚ)) (hw : 12 ≤ w.length) :
    ∀ (xs : List ℚ) (i : Nat) (res : List ℚ), i + xs.length ≤ t.length →
      (∀ j, j < xs.length → 5 ≤ (t.getD (i + j) []).length) →
      inferenceLoop w t i xs res
        = some (res ++ List.zipWith (predictionAt w) (t.drop i) xs) := by
  intro xs
  induction xs with
  | nil => intro i res _ _; simp [inferenceLoop]
  | cons x rest ih =>
    intro i res hlen h5
    have hi : i < t.length := by simp at hlen; omega
    have h0 := h5 0 (by simp)
    simp only [Nat.add_zero, List.getD_eq_getElem?_getD, List.getElem?_eq_getElem hi,
      Option.getD_some] at h0
    have hrest := ih (i + 1) (res ++ [predictionAt w t[i] x])
      (by simp at hlen ⊢; omega)
      (fun j hj => by
        have := h5 (j + 1) (by simp; omega)
        rwa [show i + (j + 1) = i + 1 + j by omega] at this)
    simp only [inferenceLoop, List.getElem?_eq_getElem hi,
      inferenceTerm_eq_some w t[i] x hw h0, hrest, List.drop_eq_getElem_cons hi,
      List.zipWith_cons_cons, List.append_assoc, List.singleton_append]

theorem inferenceLoop_eq_none (w : List ℚ) (t : List (List ℚ)) :
    ∀ (xs : List ℚ) (i : Nat) (res : List ℚ) (j : Nat), j < xs.length →
      (t.getD (i + j) []).length < 5 → inferenceLoop w t i xs res = none := by
  intro xs
  induction xs with
  | nil => intro i res j hj; simp at hj
  | cons x rest ih =>
    intro i res j hj hshort
    unfold inferenceLoop
    cases hti : t[i]? with
    | none => rfl
    | some ti =>
      cases hp : inferenceTerm w ti x with
      | none => simp only [hp]
      | some p =>
        simp only [hp]
        cases j with
        | zero =>
          have hn : inferenceTerm w ti x = none := by
            rw [inferenceTerm_eq_none_iff]
            right
            simpa [hti] using hshort
          rw [hn] at hp
          cases hp
        | succ j =>
          exact ih (i + 1) (res ++ [p]) j (by simpa using hj)
            (by rwa [show i + 1 + j = i + (j + 1) by omega])

theorem inference_length (x w : List ℚ) (t : List (List ℚ)) :
    ∀ ys, inference x w t = some ys → ys.length = x.length := by
  have key : ∀ (xs : List ℚ) (i : Nat) (res ys : List ℚ),
      inferenceLoop w t i xs res = some ys → ys.length = res.length + xs.length := by
    intro xs
    induction xs with
    | nil => intro i res ys h; simp [inferenceLoop] at h; simp [h]
    | cons a rest ih =>
      intro i res ys h
      unfold inferenceLoop at h
      cases hti : t[i]? with
      | none => simp [hti] at h
      | some ti =>
        cases hp : inferenceTerm w ti a with
        | none => simp [hti, hp] at h
        | some p =>
          simp only [hti, hp] at h
          have := ih (i + 1) (res ++ [p]) ys h
          simp at this ⊢
          omega
  intro ys h
  simpa using key x 0 [] ys h

theorem inference_eq_zipWith (x w : List ℚ) (t : List (List ℚ))
    (hw : 12 ≤ w.length) (ht : x.length ≤ t.length)
    (h5 : ∀ i, i < x.length → 5 ≤ (t.getD i []).length) :
    inference x w t = some (List.zipWith (predictionAt w) t x) := by
  have := inferenceLoop_eq_some w t hw x 0 [] (by simpa using ht)
    (fun j hj => by simpa using h5 j hj)
  simpa [inference] using this

theorem predictionAt_oneHot (w : List ℚ) (x : ℚ) (j : Nat) (hj : j < 5) :
    predictionAt w (oneHot j) x
      = (w.getD j 0 + w.getD 5 0) + (w.getD (6 + j) 0 + w.getD 11 0) * x := by
  interval_cases j <;> simp [predictionAt, oneHot]

/-! ## Claims on `inference` -/

/-- C1: for a parameter vector `w` of length 12 and type vectors `t` with
`len(t) >= len(x)` and `len(t[i]) = 5` for every sample, `inference(x, w, t)`
returns exactly `len(x)` predictions, the `i`-th being
`(w[0]*t[i][0] + ... + w[4]*t[i][4] + w[5]) + (w[6]*t[i][0] + ... + w[10]*t[i][4] + w[11]) * x[i]`;
when `t[i]` is one-hot at position `j` this is `(w[j] + w[5]) + (w[6+j] + w[11]) * x[i]`. -/
theorem inference_contract (x w : List ℚ) (t : List (List ℚ))
    (hw : w.length = 12) (ht : x.length ≤ t.length)
    (h5 : ∀ i, i < x.length → (t.getD i []).length = 5) :
    ∃ ys, inference x w t = some ys ∧ ys.length = x.length ∧
      ∀ i, i < x.length →
        ys[i]? = some
          ((w.getD 0 0 * (t.getD i []).getD 0 0 + w.getD 1 0 * (t.getD i []).getD 1 0
              + w.getD 2 0 * (t.getD i []).getD 2 0 + w.getD 3 0 * (t.getD i []).getD 3 0
              + w.getD 4 0 * (t.getD i []).getD 4 0 + w.getD 5 0)
            + (w.getD 6 0 * (t.getD i []).getD 0 0 + w.getD 7 0 * (t.getD i []).getD 1 0
              + w.getD 8 0 * (t.getD i []).getD 2 0 + w.getD 9 0 * (t.getD i []).getD 3 0
              + w.getD 10 0 * (t.getD i []).getD 4 0 + w.getD 11 0) * x.getD i 0) ∧
        ∀ j, j < 5 → t.getD i [] = oneHot j →
          ys[i]? = some ((w.getD j 0 + w.getD 5 0) + (w.getD (6 + j) 0 + w.getD 11 0) * x.getD i 0) := by
  have hsome := inference_eq_zipWith x w t (by omega) ht (fun i hi => by rw [h5 i hi])
  refine ⟨_, hsome, by simp [ht], ?_⟩
  intro i hi
  have hit : i < t.length := by omega
  have hget : (List.zipWith (predictionAt w) t x)[i]?
      = some (predictionAt w (t.getD i []) (x.getD i 0)) := by
    simp [List.getElem?_zipWith, List.getElem?_eq_getElem hi, List.getElem?_eq_getElem hit]
  refine ⟨hget, ?_⟩
  intro j hj hone
  rw [hget, hone, predictionAt_oneHot w _ j hj]

/-- Witness for C1: two samples of two different types. -/
theorem inference_contract_witness :
    ∃ ys, inference [2, 3] [1, 2, 3, 4, 5, 6, 7, 8, 9, 10, 11, 12]
        [[1, 0, 0, 0, 0], [0, 1, 0, 0, 0]] = some ys ∧ ys.length = 2 ∧ ys = [45, 68] := by
  obtain ⟨ys, h, hl, -⟩ := inference_contract [2, 3] [1, 2, 3, 4, 5, 6, 7, 8, 9, 10, 11, 12]
    [[1, 0, 0, 0, 0], [0, 1, 0, 0, 0]] (by simp) (by simp)
    (by intro i hi; simp at hi; interval_cases i <;> simp)
  refine ⟨ys, h, hl, ?_⟩
  have h2 : inference [2, 3] [1, 2, 3, 4, 5, 6, 7, 8, 9, 10, 11, 12]
      [[1, 0, 0, 0, 0], [0, 1, 0, 0, 0]] = some [45, 68] := by
    simp [inference, inferenceLoop, inferenceTerm]; norm_num
  rw [h2] at h
  exact (Option.some.inj h).symm

/-- C5, counterexample: a type vector of length 6 violates the length-5
constraint, yet `inference` returns a prediction (the sixth entry is never
read). -/
theorem inference_long_type_vector_accepted :
    ([1] : List ℚ) ≠ [] ∧
    ([1, 2, 3, 4, 5, 6, 7, 8, 9, 10, 11, 12] : List ℚ).length = 12 ∧
    (∃ i, i < ([1] : List ℚ).length ∧
      (([[1, 0, 0, 0, 0, 1]] : List (List ℚ)).getD i []).length ≠ 5) ∧
    inference [1] [1, 2, 3, 4, 5, 6, 7, 8, 9, 10, 11, 12] [[1, 0, 0, 0, 0, 1]]
      = some [26] := by
  refine ⟨by simp, by simp, ⟨0, by simp, by simp⟩, ?_⟩
  simp [inference, inferenceLoop, inferenceTerm]
  norm_num

/-- C5, amended: for a parameter vector of length 12, `inference(x, w, t)`
fails exactly when some sample `i < len(x)` has a type vector with fewer than
5 entries (a missing `t[i]` counts as having none); type vectors longer than 5
do not make it fail. -/
theorem inference_fails_iff_short (x w : List ℚ) (t : List (List ℚ))
    (hw : w.length = 12) :
    inference x w t = none ↔ ∃ i, i < x.length ∧ (t.getD i []).length < 5 := by
  constructor
  · intro hnone
    by_contra hno
    have hall : ∀ i, i < x.length → 5 ≤ (t.getD i []).length := by
      intro i hi
      by_contra hlt
      exact hno ⟨i, hi, by omega⟩
    have hlen : x.length ≤ t.length := by
      by_contra hlt
      have := hall t.length (by omega)
      simp at this
    rw [inference_eq_zipWith x w t (by omega) hlen hall] at hnone
    cases hnone
  · rintro ⟨i, hi, hshort⟩
    exact inferenceLoop_eq_none w t x 0 [] i hi (by simpa using hshort)

/-- Witness for C5 (amended): a type vector with three entries makes
`inference` fail. -/
theorem inference_fails_iff_short_witness :
    inference [1] [1, 2, 3, 4, 5, 6, 7, 8, 9, 10, 11, 12] [[1, 0, 0]] = none :=
  (inference_fails_iff_short [1] [1, 2, 3, 4, 5, 6, 7, 8, 9, 10, 11, 12] [[1, 0, 0]]
    (by simp)).mpr ⟨0, by simp, by simp⟩

/-! ## Lemmas on `msl` and `dmsl` -/

theorem fdiv_of_ne_zero (a b : ℚ) (hb : b ≠ 0) : fdiv a b = F64.fin (a / b) := by
  simp [fdiv, hb]

theorem mslLoop_eq_some (y : List ℚ) :
    ∀ (labels : List ℚ) (i : Nat) (loss : ℚ), i + labels.length ≤ y.length →
      mslLoop y i labels loss
        = some (loss + (List.zipWith (fun l p => (l - p) ^ 2) labels (y.drop i)).sum) := by
  intro labels
  induction labels with
  | nil => intro i loss _; simp [mslLoop]
  | cons l rest ih =>
    intro i loss hlen
    have hi : i < y.length := by simp at hlen; omega
    have hrest := ih (i + 1) (loss + (l - y[i]) * (l - y[i])) (by simp at hlen ⊢; omega)
    simp only [mslLoop, List.getElem?_eq_getElem hi, hrest, List.drop_eq_getElem_cons hi,
      List.zipWith_cons_cons, List.sum_cons]
    congr 1
    ring

theorem mslLoop_eq_none (y : List ℚ) :
    ∀ (labels : List ℚ) (i : Nat) (loss : ℚ), i ≤ y.length →
      y.length < i + labels.length → mslLoop y i labels loss = none := by
  intro labels
  induction labels with
  | nil => intro i loss hi hlen; simp at hlen; omega
  | cons l rest ih =>
    intro i loss _ hlen
    unfold mslLoop
    cases hy : y[i]? with
    | none => rfl
    | some yi =>
      have hi : i < y.length := by
        by_contra hge
        rw [List.getElem?_eq_none (by omega)] at hy
        cases hy
      exact ih (i + 1) _ hi (by simp at hlen ⊢; omega)

theorem dmslLoop_eq_some (inputs y : List ℚ) :
    ∀ (labels : List ℚ) (i : Nat) (dw db : ℚ), i + labels.length ≤ y.length →
      i + labels.length ≤ inputs.length →
      dmslLoop inputs y i labels dw db
        = some (dw + (List.zipWith (fun xi r => xi * r) (inputs.drop i)
                  (List.zipWith (fun l p => l - p) labels (y.drop i))).sum,
                db + (List.zipWith (fun l p => l - p) labels (y.drop i)).sum) := by
  intro labels
  induction labels with
  | nil => intro i dw db _ _; simp [dmslLoop]
  | cons l rest ih =>
    intro i dw db hy hx
    have hiy : i < y.length := by simp at hy; omega
    have hix : i < inputs.length := by simp at hx; omega
    have hrest := ih (i + 1) (dw + inputs[i] * (l - y[i])) (db + (l - y[i]))
      (by simp at hy ⊢; omega) (by simp at hx ⊢; omega)
    simp only [dmslLoop, List.getElem?_eq_getElem hiy, List.getElem?_eq_getElem hix, hrest,
      List.drop_eq_getElem_cons hiy, List.drop_eq_getElem_cons hix,
      List.zipWith_cons_cons, List.sum_cons]
    congr 1
    ext <;> simp <;> ring

theorem dmslLoop_eq_none (inputs y : List ℚ) :
    ∀ (labels : List ℚ) (i : Nat) (dw db : ℚ), i ≤ y.length → i ≤ inputs.length →
      (y.length < i + labels.length ∨ inputs.length < i + labels.length) →
      dmslLoop inputs y i labels dw db = none := by
  intro labels
  induction labels with
  | nil => intro i dw db _ _ hlen; simp at hlen; omega
  | cons l rest ih =>
    intro i dw db _ _ hlen
    unfold dmslLoop
    cases hy : y[i]? with
    | none => rfl
    | some yi =>
      cases hx : inputs[i]? with
      | none => rfl
      | some xi =>
        have hiy : i < y.length := by
          by_contra hge
          rw [List.getElem?_eq_none (by omega)] at hy
          cases hy
        have hix : i < inputs.length := by
          by_contra hge
          rw [List.getElem?_eq_none (by omega)] at hx
          cases hx
        exact ih (i + 1) _ _ hiy hix (by simp at hlen ⊢; omega)

theorem msl_eq_fin (labels preds : List ℚ) (hne : labels ≠ [])
    (hlen : preds.length = labels.length) :
    msl labels preds = some (F64.fin (meanSquaredResidual labels preds)) := by
  have hn : (labels.length : ℚ) ≠ 0 := by
    have : labels.length ≠ 0 := by simpa using hne
    exact_mod_cast this
  have h := mslLoop_eq_some preds labels 0 0 (by omega)
  simp only [List.drop_zero, zero_add] at h
  simp only [msl, h, fdiv_of_ne_zero _ _ hn, meanSquaredResidual]

theorem dmsl_eq_fin (x labels preds : List ℚ) (hne : labels ≠ [])
    (hx : x.length = labels.length) (hp : preds.length = labels.length) :
    dmsl x labels preds
      = some (F64.fin (2 * meanXResidual x labels preds),
              F64.fin (2 * meanResidual labels preds)) := by
  have hn : (labels.length : ℚ) ≠ 0 := by
    have : labels.length ≠ 0 := by simpa using hne
    exact_mod_cast this
  have h := dmslLoop_eq_some x preds labels 0 0 0 (by omega) (by omega)
  simp only [List.drop_zero, zero_add] at h
  simp only [dmsl, h, fdiv_of_ne_zero _ _ hn, meanXResidual, meanResidual, residuals,
    mul_div_assoc]

theorem sum_sq_shift (a b : ℚ) :
    ∀ (labels preds x : List ℚ), preds.length = labels.length → x.length = labels.length →
      (List.zipWith (fun l p => (l - p) ^ 2) labels (shiftPredictions a b preds x)).sum
        = (List.zipWith (fun l p => (l - p) ^ 2) labels preds).sum
          - a * (2 * (List.zipWith (fun xi r => xi * r) x (residuals labels preds)).sum)
          - b * (2 * (residuals labels preds).sum)
          + (x.map (fun xi => (a * xi + b) ^ 2)).sum := by
  intro labels
  induction labels with
  | nil => intro preds x hp hx; simp [residuals, shiftPredictions] at *; simp [hx]
  | cons l rest ih =>
    intro preds x hp hx
    cases preds with
    | nil => simp at hp
    | cons p ps =>
      cases x with
      | nil => simp at hx
      | cons xi xs =>
        have := ih ps xs (by simpa using hp) (by simpa using hx)
        simp only [residuals, shiftPredictions, List.zipWith_cons_cons, List.sum_cons,
          List.map_cons] at this ⊢
        rw [this]
        ring

/-! ## Claims on `msl` and `dmsl` -/

/-- C3: for a non-empty list of labels of length `n` and predictions of the
same length, `msl(labels, predictions)` is the sum of
`(labels[i] - predictions[i])^2` divided by `n`. -/
theorem msl_contract (labels preds : List ℚ) (hne : labels ≠ [])
    (hlen : preds.length = labels.length) :
    msl labels preds
      = some (F64.fin ((List.zipWith (fun l p => (l - p) ^ 2) labels preds).sum
          / (labels.length : ℚ))) :=
  msl_eq_fin labels preds hne hlen

/-- Witness for C3: labels `[1, 3]`, predictions `[0, 1]`, loss `(1 + 4) / 2`. -/
theorem msl_contract_witness :
    msl [1, 3] [0, 1] = some (F64.fin (5 / 2)) := by
  have h := msl_contract [1, 3] [0, 1] (by simp) (by simp)
  rw [h]
  norm_num

/-- C4, counterexample: with no labels `msl` does not fail; it returns the
quotient `0 / 0`, which is `NaN`. -/
theorem msl_empty_not_error : msl [] [] ≠ none ∧ msl [] [] = some F64.nan := by
  simp [msl, mslLoop, fdiv]

/-- C4, amended: when the label list is empty `msl` reports no error: its loop
body never runs and it returns the sum `0` divided by `float64(0)`, which is
`NaN`, whatever the predictions `y` are. -/
theorem msl_empty_returns_nan (y : List ℚ) : msl [] y = some F64.nan := by
  simp [msl, mslLoop, fdiv]

/-- C2, counterexample: for `x = [1]`, `labels = [1]`, `predictions = [0]` the
residual is `1`, so `-2 * mean(x * residual) = -2 * mean(residual) = -2`, but
`dmsl` returns `(2, 2)`. -/
theorem dmsl_sign_counterexample :
    dmsl [1] [1] [0] = some (F64.fin 2, F64.fin 2) ∧
    dmsl [1] [1] [0] ≠ some (F64.fin (-2 * meanXResidual [1] [1] [0]),
                              F64.fin (-2 * meanResidual [1] [0])) := by
  have h : dmsl [1] [1] [0] = some (F64.fin 2, F64.fin 2) := by
    simp [dmsl, dmslLoop, fdiv]
  refine ⟨h, ?_⟩
  rw [h]
  simp [meanXResidual, meanResidual, residuals]
  intro h2
  norm_num at h2

/-- C2, amended: for non-empty labels and equally long `x` and predictions,
`dmsl` returns `(2 * mean(x[i] * r[i]), 2 * mean(r[i]))` with
`r[i] = labels[i] - predictions[i]`. These are the negated partial derivatives
of the mean-squared loss: raising the aggregate slope by `a` and the aggregate
bias by `b` (predictions become `predictions[i] + a * x[i] + b`) changes the
loss by `- a * dw - b * db + mean((a * x[i] + b)^2)`. -/
theorem dmsl_negated_gradient (x labels preds : List ℚ) (hne : labels ≠ [])
    (hx : x.length = labels.length) (hp : preds.length = labels.length) :
    dmsl x labels preds
        = some (F64.fin (2 * meanXResidual x labels preds),
                F64.fin (2 * meanResidual labels preds)) ∧
      ∀ a b : ℚ, ∃ l0 lab : ℚ,
        msl labels preds = some (F64.fin l0) ∧
        msl labels (shiftPredictions a b preds x) = some (F64.fin lab) ∧
        lab = l0 - a * (2 * meanXResidual x labels preds)
                - b * (2 * meanResidual labels preds)
                + (x.map (fun xi => (a * xi + b) ^ 2)).sum / (labels.length : ℚ) := by
  refine ⟨dmsl_eq_fin x labels preds hne hx hp, ?_⟩
  intro a b
  have hs : (shiftPredictions a b preds x).length = labels.length := by
    simp [shiftPredictions, hx, hp]
  refine ⟨_, _, msl_eq_fin labels preds hne hp,
    msl_eq_fin labels (shiftPredictions a b preds x) hne hs, ?_⟩
  simp only [meanSquaredResidual, meanXResidual, meanResidual,
    sum_sq_shift a b labels preds x hp hx]
  ring

/-- Witness for C2 (amended): `x = [1, 2]`, `labels = [1, 3]`,
`predictions = [0, 1]`. -/
theorem dmsl_negated_gradient_witness :
    dmsl [1, 2] [1, 3] [0, 1]
      = some (F64.fin (2 * meanXResidual [1, 2] [1, 3] [0, 1]),
              F64.fin (2 * meanResidual [1, 3] [0, 1])) :=
  (dmsl_negated_gradient [1, 2] [1, 3] [0, 1] (by simp) (by simp) (by simp)).1

/-! ## Claim on the frame hand-off -/

/-- C6: with the capacity-1 channel `img` modelled as a slot that is empty or
holds one frame, `render(x)` completes from every slot state and leaves the
slot holding exactly `x`; after `render(a)` then `render(b)` with no receive
in between the slot holds the single frame `b`, the next receive returns `b`
and empties the slot, and a further receive finds nothing (`a` is gone). -/
theorem render_overwrites {α : Type} (img : Option α) (a b : α) :
    render img a = some (some a) ∧
    (render img a).bind (fun img1 => render img1 b) = some (some b) ∧
    chanRecv (some b) = some (b, none) ∧
    chanRecv (none : Option α) = none := by
  cases img <;> simp [render, chanRecv, chanSend]

/-! ## Claim on the dataset set-up -/

theorem colorId_lt (s : String) : colorId s < 5 := by
  unfold colorId
  split_ifs <;> omega

theorem setupLoop_types :
    ∀ (rest : List House) (i : Nat) (d : Dataset), i + rest.length ≤ d.colors.length →
      ∃ d1, setupLoop i rest d = some d1 ∧ d1.types = d.types := by
  intro rest
  induction rest with
  | nil => intro i d _; exact ⟨d, rfl, rfl⟩
  | cons house rest ih =>
    intro i d hlen
    have hi : i < d.colors.length := by simp at hlen; omega
    have hc : colorId house.WallColor < (List.replicate 5 (0 : ℚ)).length := by
      simpa using colorId_lt house.WallColor
    obtain ⟨d1, h1, h2⟩ := ih (i + 1)
      { inputs := d.inputs ++ [house.Square], labels := d.labels ++ [house.Price],
        types := d.types,
        colors := d.colors.set i ((List.replicate 5 (0 : ℚ)).set (colorId house.WallColor) 1) }
      (by simp at hlen ⊢; omega)
    refine ⟨d1, ?_, h2⟩
    simp only [setupLoop, setAt, if_pos hc, if_pos hi]
    exact h1

/-- For every list of houses the set-up succeeds and leaves every `types[i]`
as the nil slice it was made with. -/
theorem setup_types_all_nil (houses : List House) :
    ∃ d, setup houses = some d ∧ d.types = List.replicate houses.length [] := by
  obtain ⟨d, h1, h2⟩ := setupLoop_types houses 0
    { inputs := [], labels := [],
      types := List.replicate houses.length [],
      colors := List.replicate houses.length [] } (by simp)
  exact ⟨d, h1, h2⟩

/-- C7 (violated by the code): after the set-up on one house of type `Duplex`
the type vector `types[0]` is the nil slice it was made with, of length `0`
and without an entry equal to `1`, although `typeId` maps `Duplex` to a
one-hot vector; the table is never applied, and the scatter grouping then
panics on `types[0][0]`. -/
theorem setup_one_duplex :
    setup [{ Square := 50, Typ := "Duplex", Price := 100, WallColor := "brown" }]
      = some { inputs := [50], labels := [100], types := [[]],
               colors := [[1, 0, 0, 0, 0]] } ∧
    typeId "Duplex" = [1, 0, 0, 0, 0] ∧
    scatterGroups { inputs := [50], labels := [100], types := [[]],
                    colors := [[1, 0, 0, 0, 0]] } = none := by
  refine ⟨?_, ?_, ?_⟩
  · simp [setup, setupLoop, setAt, colorId]
  · simp [typeId]
  · simp [scatterGroups, groupLoopI, groupLoopJ]

/-! ## Lemmas on the trainer goroutine -/

theorem render_eq {α : Type} (img : Option α) (x : α) : render img x = some (some x) := by
  cases img <;> simp [render, chanRecv, chanSend]

theorem epochFrame_eq_some (d : Dataset) (w : List ℚ) (loss : List XY) (ys : List ℚ)
    (hfit : inference fitXs w d.types = some ys) :
    ∃ frame, epochFrame d w loss = some frame := by
  have hl : ys.length = 2 := by
    simpa [fitXs] using inference_length fitXs w d.types ys hfit
  rcases ys with _ | ⟨y0, _ | ⟨y1, _ | ⟨y2, ys⟩⟩⟩ <;> simp at hl
  refine ⟨Frame.fitLine (inputPointsMinX - extra, y0) (inputPointsMaxX + extra, y1), ?_⟩
  unfold epochFrame
  rw [hfit]
  simp [plotLoss, fitXs]

theorem dmsl_isSome_of_msl (d : Dataset) (w : List ℚ) (y : List ℚ) (l : F64)
    (hy : inference d.inputs w d.types = some y) (hl : msl d.labels y = some l) :
    ∃ g, dmsl d.inputs d.labels y = some g := by
  have hlen : y.length = d.inputs.length := inference_length _ _ _ y hy
  have hle : d.labels.length ≤ y.length := by
    by_contra hlt
    have := mslLoop_eq_none y d.labels 0 0 (by omega) (by omega)
    simp [msl, this] at hl
  have h := dmslLoop_eq_some d.inputs y d.labels 0 0 0 (by omega) (by omega)
  rw [dmsl, h]
  exact ⟨_, rfl⟩

theorem epochBody_eq_some (d : Dataset) (i : Nat) (s : Trainer) (y ys : List ℚ) (l : F64)
    (g : F64 × F64)
    (hy : inference d.inputs s.w d.types = some y) (hl : msl d.labels y = some l)
    (hfit : inference fitXs s.w d.types = some ys)
    (hg : dmsl d.inputs d.labels y = some g) :
    ∃ s1, epochBody d i s = some s1 ∧ s1.w = s.w ∧
      s1.loss = s.loss ++ [{ X := (i : ℚ), Y := l }] ∧
      (s1.out = s.out ∨ s1.out = s.out ++ [Line.report i l g.1 g.2 s.w]) := by
  obtain ⟨frame, hframe⟩ :=
    epochFrame_eq_some d s.w (s.loss ++ [{ X := (i : ℚ), Y := l }]) ys hfit
  obtain ⟨dw, db⟩ := g
  by_cases hmod : i % printEveryNthEpochs = 0
  · refine ⟨{ w := s.w, loss := s.loss ++ [{ X := (i : ℚ), Y := l }], img := some frame,
              out := s.out ++ [Line.report i l dw db s.w] }, ?_, rfl, rfl, Or.inr rfl⟩
    simp [epochBody, hy, hl, hframe, render_eq, hg, hmod]
  · refine ⟨{ w := s.w, loss := s.loss ++ [{ X := (i : ℚ), Y := l }], img := some frame,
              out := s.out }, ?_, rfl, rfl, Or.inl rfl⟩
    simp [epochBody, hy, hl, hframe, render_eq, hg, hmod]

theorem epochBody_w (d : Dataset) (i : Nat) (s s1 : Trainer)
    (h : epochBody d i s = some s1) : s1.w = s.w := by
  unfold epochBody at h
  split at h
  · cases h
  · split at h
    · cases h
    · simp only at h
      split at h
      · cases h
      · split at h
        · cases h
        · split at h
          · cases h
          · split at h
            · split at h
              · cases h
              · cases h; rfl
            · cases h; rfl

theorem trainerLoop_w (d : Dataset) :
    ∀ (n i : Nat) (s s1 : Trainer), trainerLoop d n i s = some s1 → s1.w = s.w := by
  intro n
  induction n with
  | zero => intro i s s1 h; simp [trainerLoop] at h; rw [h]
  | succ n ih =>
    intro i s s1 h
    unfold trainerLoop at h
    cases hb : epochBody d i s with
    | none => simp [hb] at h
    | some s2 =>
      simp only [hb] at h
      rw [ih (i + 1) s2 s1 h, epochBody_w d i s s2 hb]

theorem trainerLoop_run (d : Dataset) (w0 y ys : List ℚ) (l : F64) (g : F64 × F64)
    (hy : inference d.inputs w0 d.types = some y) (hl : msl d.labels y = some l)
    (hfit : inference fitXs w0 d.types = some ys)
    (hg : dmsl d.inputs d.labels y = some g) :
    ∀ (n i : Nat) (s : Trainer), s.w = w0 →
      ∃ s1, trainerLoop d n i s = some s1 ∧ s1.w = w0 ∧
        s1.loss = s.loss
          ++ (List.range n).map (fun k => ({ X := ((i + k : Nat) : ℚ), Y := l } : XY)) ∧
        ∀ line, line ∈ s1.out → line ∈ s.out ∨ ∃ k, line = Line.report k l g.1 g.2 w0 := by
  intro n
  induction n with
  | zero =>
    intro i s hw
    exact ⟨s, rfl, hw, by simp, fun line h => Or.inl h⟩
  | succ n ih =>
    intro i s hw
    obtain ⟨s1, hb, hw1, hloss1, hout1⟩ := epochBody_eq_some d i s y ys l g
      (by rw [hw]; exact hy) hl (by rw [hw]; exact hfit) hg
    obtain ⟨s2, hrun, hw2, hloss2, hout2⟩ := ih (i + 1) s1 (by rw [hw1, hw])
    refine ⟨s2, ?_, hw2, ?_, ?_⟩
    · simp only [trainerLoop, hb, hrun]
    · rw [hloss2, hloss1, List.range_succ_eq_map, List.map_cons, List.map_map,
        List.append_assoc]
      congr 1
      simp only [List.singleton_append, Nat.add_zero, List.cons.injEq, true_and]
      apply List.map_congr_left
      intro k _
      simp only [Function.comp, Nat.succ_eq_add_one]
      rw [show i + 1 + k = i + (k + 1) by omega]
    · intro line hline
      rcases hout2 line hline with h | h
      · rcases hout1 with h1 | h1
        · left; rwa [h1] at h
        · rw [h1] at h
          rcases List.mem_append.mp h with h3 | h3
          · left; exact h3
          · right
            refine ⟨i, ?_⟩
            rw [hw] at h3
            simpa using h3
      · right; exact h

theorem trainerLoop_succ (d : Dataset) (n i : Nat) (s : Trainer) :
    trainerLoop d (n + 1) i s
      = match epochBody d i s with
        | none => none
        | some s1 => trainerLoop d n (i + 1) s1 := rfl

theorem twoSamples_inference : inference twoSamples.inputs zeroW twoSamples.types = some [0, 0] := by
  simp [twoSamples, zeroW, inference, inferenceLoop, inferenceTerm]

theorem twoSamples_msl : msl twoSamples.labels [0, 0] = some (F64.fin 5) := by
  simp [twoSamples, msl, mslLoop, fdiv]
  norm_num

theorem twoSamples_fit : inference fitXs zeroW twoSamples.types = some [0, 0] := by
  simp [twoSamples, zeroW, fitXs, inference, inferenceLoop, inferenceTerm]

/-! ## Claims on the trainer loop -/

/-- C8, counterexample: on a dataset of one sample `inference` over the inputs
and `msl` succeed, but the first epoch panics in the second call
`inference(xs, w, types)`, which reads `types[1]` for the second abscissa; no
loss history of `epochs` entries is produced. -/
theorem loss_history_single_sample :
    inference oneSample.inputs zeroW oneSample.types = some [0] ∧
    msl oneSample.labels [0] = some (F64.fin 1) ∧
    trainerLoop oneSample epochs 0 (trainerStart zeroW none) = none := by
  refine ⟨?_, ?_, ?_⟩
  · simp [oneSample, zeroW, inference, inferenceLoop, inferenceTerm]
  · simp [oneSample, msl, mslLoop, fdiv]
  · show trainerLoop oneSample (1999 + 1) 0 (trainerStart zeroW none) = none
    rw [trainerLoop_succ]
    simp [epochBody, trainerStart, oneSample, zeroW, inference, inferenceLoop, inferenceTerm,
      msl, mslLoop, fdiv, epochFrame, plotLoss, fitXs]

/-- C8, amended: for an epoch budget `E` and a dataset on which
`inference(inputs, w, types)`, `msl` and the fit-line call
`inference(xs, w, types)` over the two abscissas succeed, the trainer loop
finishes with a loss history of exactly `E` entries; after `k` epochs the
history is the first `k` entries of the final one (one entry more per epoch,
earlier entries unchanged), and entry `k` is
`(k, msl(labels, inference(inputs, w, types)))` for the `w` in force at epoch
`k`. -/
theorem loss_history_contract (d : Dataset) (E : Nat) (w0 : List ℚ) (img : Option Frame)
    (y ys : List ℚ) (l : F64)
    (hy : inference d.inputs w0 d.types = some y) (hl : msl d.labels y = some l)
    (hfit : inference fitXs w0 d.types = some ys) :
    ∃ final, trainerLoop d E 0 (trainerStart w0 img) = some final ∧
      final.loss.length = E ∧
      (∀ k, k ≤ E → ∃ sk, trainerLoop d k 0 (trainerStart w0 img) = some sk ∧
        sk.loss = final.loss.take k) ∧
      (∀ k, k < E → ∃ sk yk lk, trainerLoop d k 0 (trainerStart w0 img) = some sk ∧
        inference d.inputs sk.w d.types = some yk ∧ msl d.labels yk = some lk ∧
        final.loss[k]? = some { X := (k : ℚ), Y := lk }) := by
  obtain ⟨g, hg⟩ := dmsl_isSome_of_msl d w0 y l hy hl
  have run := trainerLoop_run d w0 y ys l g hy hl hfit hg
  obtain ⟨final, hfinal, -, hloss, -⟩ := run E 0 (trainerStart w0 img) rfl
  simp only [trainerStart, List.nil_append, Nat.zero_add] at hloss
  refine ⟨final, hfinal, by simp [hloss], ?_, ?_⟩
  · intro k hk
    obtain ⟨sk, hsk, -, hlossk, -⟩ := run k 0 (trainerStart w0 img) rfl
    simp only [trainerStart, List.nil_append, Nat.zero_add] at hlossk
    refine ⟨sk, hsk, ?_⟩
    rw [hlossk, hloss, ← List.map_take, List.take_range, Nat.min_eq_left hk]
  · intro k hk
    obtain ⟨sk, hsk, hwk, -, -⟩ := run k 0 (trainerStart w0 img) rfl
    refine ⟨sk, y, l, hsk, by rw [hwk]; exact hy, hl, ?_⟩
    rw [hloss, List.getElem?_map, List.getElem?_range hk]
    rfl

/-- Witness for C8 (amended): the budget of 2000 epochs of the program on a dataset
of two samples. -/
theorem loss_history_contract_witness :
    ∃ final, trainerLoop twoSamples epochs 0 (trainerStart zeroW none) = some final ∧
      final.loss.length = epochs ∧
      final.loss[1999]? = some { X := 1999, Y := F64.fin 5 } := by
  obtain ⟨final, h1, h2, -, h4⟩ := loss_history_contract twoSamples epochs zeroW none
    [0, 0] [0, 0] (F64.fin 5) twoSamples_inference twoSamples_msl twoSamples_fit
  refine ⟨final, h1, h2, ?_⟩
  obtain ⟨sk, yk, lk, hsk, hyk, hlk, hk⟩ := h4 1999 (by simp [epochs])
  have hw : sk.w = zeroW := trainerLoop_w twoSamples 1999 0 _ sk hsk
  rw [hw, twoSamples_inference] at hyk
  cases hyk
  rw [twoSamples_msl] at hlk
  cases hlk
  simpa using hk

/-- C10: the trainer loop never changes the parameter vector. From every start
vector `w0` and on every dataset, the state before each epoch `k` has
`w = w0`, and the vector printed after the loop is `w0`. When epoch 0 runs
(its two `inference` calls and `msl` succeed), every epoch runs, with the
predictions, the recorded loss and the gradients `(dw, db)` of epoch 0, and
the goroutine ends by printing `w0`. -/
theorem trainer_never_updates_weights (d : Dataset) (E : Nat) (w0 : List ℚ)
    (img : Option Frame) :
    (∀ k sk, trainerLoop d k 0 (trainerStart w0 img) = some sk → sk.w = w0) ∧
    (∀ final, trainerFrom d E w0 img = some final →
      final.w = w0 ∧ final.out.getLast? = some (Line.weights w0)) ∧
    (∀ y ys l, inference d.inputs w0 d.types = some y → msl d.labels y = some l →
      inference fitXs w0 d.types = some ys →
      ∃ g final, dmsl d.inputs d.labels y = some g ∧
        trainerFrom d E w0 img = some final ∧ final.w = w0 ∧
        final.out.getLast? = some (Line.weights w0) ∧
        (∀ line, line ∈ final.out →
          line = Line.weights w0 ∨ ∃ k, line = Line.report k l g.1 g.2 w0) ∧
        ∀ k, k < E → ∃ sk, trainerLoop d k 0 (trainerStart w0 img) = some sk ∧
          sk.w = w0 ∧ inference d.inputs sk.w d.types = some y ∧
          final.loss[k]? = some { X := (k : ℚ), Y := l }) := by
  have hframe : ∀ k sk, trainerLoop d k 0 (trainerStart w0 img) = some sk → sk.w = w0 :=
    fun k sk h => trainerLoop_w d k 0 _ sk h
  refine ⟨hframe, ?_, ?_⟩
  · intro final h
    unfold trainerFrom at h
    cases hrun : trainerLoop d E 0 (trainerStart w0 img) with
    | none => simp [hrun] at h
    | some s =>
      simp only [hrun, Option.some.injEq] at h
      have hw := hframe E s hrun
      subst h
      simp [hw]
  · intro y ys l hy hl hfit
    obtain ⟨g, hg⟩ := dmsl_isSome_of_msl d w0 y l hy hl
    have run := trainerLoop_run d w0 y ys l g hy hl hfit hg
    obtain ⟨s, hs, hw, hloss, hout⟩ := run E 0 (trainerStart w0 img) rfl
    simp only [trainerStart, List.nil_append, Nat.zero_add] at hloss
    refine ⟨g, { s with out := s.out ++ [Line.weights s.w] }, hg, ?_, hw, ?_, ?_, ?_⟩
    · simp only [trainerFrom, hs]
    · simp [hw]
    · intro line hline
      rcases List.mem_append.mp hline with h | h
      · rcases hout line h with h1 | h1
        · simp [trainerStart] at h1
        · right; exact h1
      · left
        rw [hw] at h
        simpa using h
    · intro k hk
      obtain ⟨sk, hsk, hwk, -, -⟩ := run k 0 (trainerStart w0 img) rfl
      refine ⟨sk, hsk, hwk, by rw [hwk]; exact hy, ?_⟩
      show s.loss[k]? = _
      rw [hloss, List.getElem?_map, List.getElem?_range hk]
      rfl

/-- Witness for C10: the trainer goroutine on a dataset of two samples with
the budget of 2000 epochs of the program ends with the start vector, printed
last. -/
theorem trainer_never_updates_weights_witness :
    ∃ final, trainerFrom twoSamples epochs zeroW none = some final ∧
      final.w = zeroW ∧ final.out.getLast? = some (Line.weights zeroW) := by
  obtain ⟨_, final, _, h1, h2, h3, _⟩ :=
    (trainer_never_updates_weights twoSamples epochs zeroW none).2.2
      [0, 0] [0, 0] (F64.fin 5) twoSamples_inference twoSamples_msl twoSamples_fit
  exact ⟨final, h1, h2, h3⟩

end GradientDescent
